import Mathlib

/-!
Verification of the darshan-summarizer log-to-table transformation engine
(`darshan_summarizer/parser.py`).

The embedding works at the granularity of lines: a parsed log document is
modelled as the `List String` produced by Python's `str.splitlines()`, and
data rows as the `List String` produced by `str.split()`.  String primitives
(`in`, `startswith`, `split`, `strip`, `endswith`, `replace`, `re.findall`)
are re-implemented structurally over `List Char` so that every definition is
executable by kernel reduction.

The pandas calls in `parse_darshan_to_csv` (`pd.DataFrame(rows, columns)`
followed by `pivot_table(index=identity, columns='counter', values='value',
aggfunc='first').reset_index()`) are embedded by `pivotModule`: grouping keys
and counter columns are the distinct observed values sorted ascending (pandas
sorts both the group index and the pivoted columns), and each cell holds the
first observation in original row order (`aggfunc='first'`).  Following the
source's own open assumption, the embedding reads row fields by column
position and is faithful for rows whose token count equals the column count.
-/

namespace DarshanSummarizer

/-- Prefix test on char lists: `isPrefixL pat s` says `pat` is a leading segment of `s`. -/
def isPrefixL : List Char → List Char → Bool
  | [], _ => true
  | _ :: _, [] => false
  | a :: as, b :: bs => a == b && isPrefixL as bs

/-- Python's substring test `pat in s`, on char lists. -/
def containsL (pat : List Char) : List Char → Bool
  | [] => pat.isEmpty
  | c :: rest => isPrefixL pat (c :: rest) || containsL pat rest

/-- Python `pat in s` on strings. -/
def pyContains (s pat : String) : Bool := containsL pat.data s.data

/-- Python `s.startswith(pat)`. -/
def pyStartswith (s pat : String) : Bool := isPrefixL pat.data s.data

/-- Helper for `pySplit`: split on whitespace runs, `acc` holds the chars of
the token in progress (reversed). -/
def splitWsAux : List Char → List Char → List (List Char)
  | [], [] => []
  | [], acc => [acc.reverse]
  | c :: cs, acc =>
    if c.isWhitespace then
      if acc.isEmpty then splitWsAux cs []
      else acc.reverse :: splitWsAux cs []
    else splitWsAux cs (c :: acc)

/-- Python `s.split()` (no argument): split on whitespace runs, no empty
tokens. -/
def pySplit (s : String) : List String :=
  (splitWsAux s.data []).map (fun cs => String.mk cs)

/-- Python `not s.strip()`: the line is empty or all whitespace. -/
def isBlankStr (s : String) : Bool := s.data.all (fun c => c.isWhitespace)

/-- Helper for `re.findall(r'<(.*?)>', line)`.  When the second argument is
`some acc` we are inside a `<...>` group started earlier (`acc` reversed);
a `>` closes the group, and a group left open at end of line matches
nothing. -/
def tagTokensAux : List Char → Option (List Char) → List String
  | [], _ => []
  | c :: rest, none =>
    if c == '<' then tagTokensAux rest (some []) else tagTokensAux rest none
  | c :: rest, some acc =>
    if c == '>' then String.mk acc.reverse :: tagTokensAux rest none
    else tagTokensAux rest (some (c :: acc))

/-- Embedding of `re.findall(r'<(.*?)>', line)`: all non-greedy `<...>` captures, left to
right. -/
def findTagTokens (line : String) : List String := tagTokensAux line.data none

/-- Python `name.replace(" ", "_")` (single-character pattern). -/
def underscoreSpaces (s : String) : String :=
  String.mk (s.data.map (fun c => if c == ' ' then '_' else c))

/-- The column names extracted from a `#<module>` column-spec line:
bracketed tokens with embedded spaces normalised to underscores
(parser.py lines 114-116). -/
def parseColumns (line : String) : List String :=
  (findTagTokens line).map underscoreSpaces

/-- Python `'\n'.join(xs)`. -/
def joinWith (sep : String) : List String → String
  | [] => ""
  | [x] => x
  | x :: y :: xs => x ++ sep ++ joinWith sep (y :: xs)

/-- The fixed boilerplate denylist `SKIP_LINES` (parser.py lines 16-24). -/
def SKIP_LINES : List String :=
  [ "# *WARNING*: The POSIX module contains incomplete data!"
  , "#            This happens when a module runs out of"
  , "#            memory to store new record data."
  , "# To avoid this error, consult the darshan-runtime"
  , "# documentation and consider setting the"
  , "# DARSHAN_EXCLUDE_DIRS environment variable to prevent"
  , "# Darshan from instrumenting unecessary files."
  ]

/-- One category's accumulated state: the value stored at
`modules[name]` in `extract_modules`. -/
structure ModuleData where
  columns : List String
  data : List (List String)
  description : String
  deriving DecidableEq

/-- The loop-carried state of `extract_modules`: the (insertion-ordered)
dict `modules`, the current module name, the `in_module` flag, the
description accumulator and the most recent column-spec. -/
structure ScanState where
  modules : List (String × ModuleData)
  module : Option String
  in_module : Bool
  current_description : List String
  column_names : List String
  deriving DecidableEq

/-- Dict update `modules[name] = md` on an insertion-ordered dict: replaces in place if
the key exists (Python dicts keep the original position), else appends. -/
def setModule (name : String) (md : ModuleData) :
    List (String × ModuleData) → List (String × ModuleData)
  | [] => [(name, md)]
  | (n, d) :: rest =>
    if n == name then (n, md) :: rest else (n, d) :: setModule name md rest

/-- Row append `modules[name]['data'].append(row)`. -/
def addRow (name : String) (row : List String)
    (ms : List (String × ModuleData)) : List (String × ModuleData) :=
  ms.map (fun p => if p.1 == name then (p.1, { p.2 with data := p.2.data ++ [row] }) else p)

/-- One iteration of the `extract_modules` loop body (parser.py lines
103-137), with the branches in source order: denylist skip, `module data`
description reset, `#<module>` column spec, comment line outside a module,
and in-module blank-line termination / data row.  At a first data row the
module entry is (re)created with empty data and the joined description,
then the row is appended. -/
def scanLine (st : ScanState) (line : String) : ScanState :=
  if SKIP_LINES.contains line then st
  else if pyContains line "module data" then { st with current_description := [] }
  else if pyStartswith line "#<module>" then
    { st with column_names := parseColumns line, in_module := true }
  else if pyStartswith line "#" && !st.in_module then
    { st with current_description := st.current_description ++ [line] }
  else if st.in_module then
    if isBlankStr line then { st with in_module := false, module := none }
    else
      let fields := pySplit line
      match st.module with
      | none =>
        let name := fields.headD ""
        { st with
            modules := addRow name fields
              (setModule name
                ⟨st.column_names, [], joinWith "\n" st.current_description⟩
                st.modules),
            module := some name }
      | some name => { st with modules := addRow name fields st.modules }
  else st

/-- The initial scanner state of `extract_modules`. -/
def initState : ScanState := ⟨[], none, false, [], []⟩

/-- Embedding of `extract_modules(log_data)` (parser.py lines 88-139) on the line list of
the document: the final `modules` dict as an insertion-ordered association
list. -/
def extract_modules (lines : List String) : List (String × ModuleData) :=
  (lines.foldl scanLine initState).modules

/-- Embedding of `extract_header(log_data)` (parser.py lines 68-85) on the line list: all
lines strictly before the first line containing the sentinel
`"log file regions"`.  (The source concatenates them with `"\n"`.) -/
def extract_header (lines : List String) : List String :=
  lines.takeWhile (fun l => !pyContains l "log file regions")

/-- Strict lexicographic lifting of a strict order to lists (Python's
sequence comparison). -/
def lexLt (lt : α → α → Bool) : List α → List α → Bool
  | [], [] => false
  | [], _ :: _ => true
  | _ :: _, [] => false
  | a :: as, b :: bs =>
    if lt a b then true
    else if lt b a then false
    else lexLt lt as bs

/-- Python character `<`: comparison of code points. -/
def charLtB (a b : Char) : Bool := a.toNat < b.toNat

/-- Python string `<` — the order pandas sorts string labels by. -/
def strLtB (a b : String) : Bool := lexLt charLtB a.data b.data

/-- Lexicographic order on tuples of strings — how pandas orders a
(multi-)index of string keys. -/
def keyLtB (a b : List String) : Bool := lexLt strLtB a b

/-- Insert into a list sorted by `lt` (ascending), before the first element
not below the new one. -/
def insertSortedBy (lt : α → α → Bool) (a : α) : List α → List α
  | [] => [a]
  | b :: bs => if lt b a then b :: insertSortedBy lt a bs else a :: b :: bs

/-- Insertion sort, ascending by `lt`. -/
def sortBy (lt : α → α → Bool) (xs : List α) : List α :=
  xs.foldr (insertSortedBy lt) []

/-- The distinct elements of a list in order of first appearance. -/
def dedupFirstSeen [BEq α] (xs : List α) : List α :=
  xs.foldl (fun acc x => if acc.contains x then acc else acc ++ [x]) []

/-- The identity (grouping) columns:
`[col for col in columns if col not in ['counter', 'value']]`
(parser.py line 181). -/
def identityColumns (cols : List String) : List String :=
  cols.filter (fun c => !(c == "counter" || c == "value"))

/-- The value of column `c` in a raw row, by token position in the
column-spec (how `pd.DataFrame(rows, columns=columns)` aligns tokens to
columns; faithful when the row's token count equals the column count). -/
def field (cols : List String) (row : List String) (c : String) : String :=
  (row.get? (cols.indexOf c)).getD ""

/-- The identity-key tuple of a raw row. -/
def keyOf (cols : List String) (row : List String) : List String :=
  (identityColumns cols).map (field cols row)

/-- The `counter` token of a raw row. -/
def counterOf (cols : List String) (row : List String) : String :=
  field cols row "counter"

/-- The `value` token of a raw row. -/
def valueOf (cols : List String) (row : List String) : String :=
  field cols row "value"

/-- The grouped-first accumulation behind
`pivot_table(..., aggfunc='first')`: fold over the raw rows in original
order, recording the value of each `(identity key, counter)` pair only the
first time the pair is seen. -/
def pivotAccum (md : ModuleData) : List ((List String × String) × String) :=
  md.data.foldl
    (fun tbl r =>
      if tbl.any (fun e => e.1 == (keyOf md.columns r, counterOf md.columns r)) then tbl
      else tbl ++ [((keyOf md.columns r, counterOf md.columns r), valueOf md.columns r)])
    []

/-- One cell of the pivoted table: the recorded value for an
`(identity key, counter)` pair, or `none` (pandas `NaN`) if the pair was
never observed. -/
def pivotCell (md : ModuleData) (k : List String) (c : String) : Option String :=
  (pivotAccum md).lookup (k, c)

/-- The accumulation step of `pivotAccum`, with the column list abstracted. -/
def accStep (cols : List String) (tbl : List ((List String × String) × String))
    (r : List String) : List ((List String × String) × String) :=
  if tbl.any (fun e => e.1 == (keyOf cols r, counterOf cols r)) then tbl
  else tbl ++ [((keyOf cols r, counterOf cols r), valueOf cols r)]

/-- The counter columns of the pivoted table: the distinct `counter` values,
sorted ascending (pandas sorts the pivoted column labels). -/
def sortedCounters (md : ModuleData) : List String :=
  sortBy strLtB (dedupFirstSeen (md.data.map (counterOf md.columns)))

/-- The group rows of the pivoted table: the distinct identity-key tuples,
sorted ascending (pandas `groupby(sort=True)` sorts the index). -/
def sortedKeys (md : ModuleData) : List (List String) :=
  sortBy keyLtB (dedupFirstSeen (md.data.map (keyOf md.columns)))

/-- The wide table written to `<category>.csv`: `index_columns` then
`counters` form the CSV header row, and each row pairs an identity-key
tuple with its cells in counter-column order. -/
structure WideTable where
  index_columns : List String
  counters : List String
  rows : List (List String × List (Option String))
  deriving DecidableEq

/-- The reshape
`df.pivot_table(index=index_columns, columns='counter', values='value',
aggfunc='first').reset_index()` (parser.py lines 181-187).

With a non-empty identity-column list this is the wide table: one row per
distinct identity key, one column per distinct counter, first observation
wins.  When the identity-column list is empty pandas groups by `counter`
alone and then transposes (`pivot_table` runs `table = table.T` when
`len(index) == 0 and len(columns) > 0`), so the result is a single-row
frame whose columns are the (sorted) counters, its one row labelled by the
old column name `value` and holding the first value of each counter;
`reset_index` turns the unnamed transposed index into a column called
`index` — no exception is raised. -/
def pivotModule (md : ModuleData) : WideTable :=
  if (identityColumns md.columns).isEmpty then
    { index_columns := ["index"], counters := sortedCounters md,
      rows := [(["value"], (sortedCounters md).map (fun c => pivotCell md [] c))] }
  else
    { index_columns := identityColumns md.columns,
      counters := sortedCounters md,
      rows := (sortedKeys md).map
        (fun k => (k, (sortedCounters md).map (fun c => pivotCell md k c))) }

/-- The CSV header row of a wide table (`reset_index` puts the identity
columns first, then the counter columns). -/
def csvHeader (wt : WideTable) : List String := wt.index_columns ++ wt.counters

/-- The reshape step's failure modes: `df['counter']` / `df['value']`
raise `KeyError` inside `pivot_table` when the column-spec lacks that
column. -/
inductive ReshapeError
  | missingColumn (name : String)
  deriving DecidableEq

/-- The reshape step as a fallible function: `KeyError` when `counter` or
`value` is absent from the column-spec, otherwise the pivoted table.
`pivot_table` validates the `values` label before the groupby touches the
keys, so when both columns are missing the raised error names `value`. -/
def reshapeModule (md : ModuleData) : Except ReshapeError WideTable :=
  if !(md.columns.contains "value") then .error (.missingColumn "value")
  else if !(md.columns.contains "counter") then .error (.missingColumn "counter")
  else .ok (pivotModule md)

/-- The contents the writer puts in an artifact. -/
inductive FileContent
  | text (s : String)
  | headerText (lines : List String)
  | table (t : WideTable)
  deriving DecidableEq

/-- One side effect of `parse_darshan_to_csv`, in program order. -/
inductive WriteEvent
  | mkdirOutput
  | file (path : String) (content : FileContent)
  deriving DecidableEq

/-- The failures `parse_darshan_to_csv` can raise: the empty-content
`ValueError` (parser.py lines 152-153), or a reshape failure on the named
category. -/
inductive ParseError
  | noData
  | reshape (name : String) (e : ReshapeError)
  deriving DecidableEq

/-- The per-category half of `parse_darshan_to_csv` (lines 170-198):
process the categories in dict order; for each, reshape and then write
`<name>.csv` and `<name>_description.txt`; a reshape failure aborts the
loop, keeping the writes already performed. -/
def moduleEvents : List (String × ModuleData) → List WriteEvent × Option ParseError
  | [] => ([], none)
  | (n, md) :: rest =>
    match reshapeModule md with
    | .error e => ([], some (.reshape n e))
    | .ok wt =>
      let (ws, r) := moduleEvents rest
      (.file (n ++ ".csv") (.table wt) :: .file (n ++ "_description.txt") (.text md.description) :: ws, r)

/-- Embedding of `parse_darshan_to_csv(log_content, output_dir)` (parser.py lines
142-200) as the ordered list of side effects it performs before returning
or raising, paired with the failure if any: the empty-content guard, then
`os.makedirs`, then the `header.txt` write, then the per-category loop. -/
def parse_darshan_to_csv (lines : List String) :
    List WriteEvent × Option ParseError :=
  if lines.isEmpty then ([], some .noData)
  else
    let (ws, r) := moduleEvents (extract_modules lines)
    (.mkdirOutput :: .file "header.txt" (.headerText (extract_header lines)) :: ws, r)

/-- Python `s.endswith(pat)`. -/
def pyEndswith (s pat : String) : Bool :=
  isPrefixL pat.data.reverse s.data.reverse

/-- Python `file.replace(".csv", "")`: remove every non-overlapping
occurrence of `.csv`, scanning left to right. -/
def stripCsvAux : List Char → List Char
  | '.' :: 'c' :: 's' :: 'v' :: rest => stripCsvAux rest
  | c :: rest => c :: stripCsvAux rest
  | [] => []

/-- Python `file.replace(".csv", "")` on strings. -/
def stripCsv (s : String) : String := String.mk (stripCsvAux s.data)

/-- Embedding of `list_darshan_modules(analysis_dir)` (parser.py lines 203-218) on the
list of filenames in the directory: keep the names ending in `.csv` and
strip the `.csv` occurrences. -/
def list_darshan_modules (files : List String) : List String :=
  (files.filter (fun f => pyEndswith f ".csv")).map stripCsv

/-- The filenames `parse_darshan_to_csv` leaves in a fresh output directory
after writing categories `names` (in dict order): `header.txt`, and per
category `<name>.csv` and `<name>_description.txt` (parser.py lines
164, 190-191). -/
def persistedFiles (names : List String) : List String :=
  "header.txt" :: names.foldr (fun n acc => (n ++ ".csv") :: (n ++ "_description.txt") :: acc) []

/-- Modelled from the spec: "one column per counter name in first-seen
order" — the claimed (not implemented) ordering of the counter columns,
for comparison with `sortedCounters`. -/
def firstSeenCounters (md : ModuleData) : List String :=
  dedupFirstSeen (md.data.map (counterOf md.columns))

/-- The write events produced by the per-category loop for a prefix of
categories that all reshape successfully (the artifacts that are already on
disk when a later category fails). -/
def goodEvents (ms : List (String × ModuleData)) : List WriteEvent :=
  ms.foldr
    (fun p acc =>
      match reshapeModule p.2 with
      | .ok wt =>
        WriteEvent.file (p.1 ++ ".csv") (FileContent.table wt) ::
          WriteEvent.file (p.1 ++ "_description.txt") (FileContent.text p.2.description) :: acc
      | .error _ => acc)
    []

theorem charLtB_trans (a b c : Char) (h1 : charLtB a b = true) (h2 : charLtB b c = true) :
    charLtB a c = true := by
  simp only [charLtB, decide_eq_true_eq] at *
  omega

theorem charLtB_eq_of_neither (a b : Char) (h1 : charLtB a b = false) (h2 : charLtB b a = false) :
    a = b := by
  simp only [charLtB, decide_eq_false_iff_not, Nat.not_lt] at h1 h2
  exact Char.ext (UInt32.ext (Nat.le_antisymm h2 h1))

theorem lexLt_trans (lt : α → α → Bool)
    (htr : ∀ a b c, lt a b = true → lt b c = true → lt a c = true)
    (heq : ∀ a b, lt a b = false → lt b a = false → a = b) :
    ∀ as bs cs, lexLt lt as bs = true → lexLt lt bs cs = true → lexLt lt as cs = true := by
  intro as
  induction as with
  | nil =>
    intro bs cs h1 h2
    cases bs with
    | nil => simp [lexLt] at h1
    | cons b bs =>
      cases cs with
      | nil => simp [lexLt] at h2
      | cons c cs => simp [lexLt]
  | cons a as ih =>
    intro bs cs h1 h2
    cases bs with
    | nil => simp [lexLt] at h1
    | cons b bs =>
      cases cs with
      | nil => simp [lexLt] at h2
      | cons c cs =>
        simp only [lexLt] at h1 h2 ⊢
        cases hab : lt a b with
        | true =>
          cases hbc : lt b c with
          | true => simp [htr a b c hab hbc]
          | false =>
            cases hcb : lt c b with
            | true => simp [hbc, hcb] at h2
            | false =>
              have hbc' : b = c := heq b c hbc hcb
              subst hbc'
              simp [hab]
        | false =>
          cases hba : lt b a with
          | true => simp [hab, hba] at h1
          | false =>
            have hab' : a = b := heq a b hab hba
            subst hab'
            simp only [hab, Bool.false_eq_true, if_false] at h1 h2 ⊢
            cases hac : lt a c with
            | true => simp [hac]
            | false =>
              cases hca : lt c a with
              | true => simp [hac, hca] at h2
              | false =>
                have hac' : a = c := heq a c hac hca
                subst hac'
                simp only [hac, Bool.false_eq_true, if_false] at h2 ⊢
                exact ih bs cs h1 h2

theorem lexLt_eq_of_neither (lt : α → α → Bool)
    (heq : ∀ a b, lt a b = false → lt b a = false → a = b) :
    ∀ as bs, lexLt lt as bs = false → lexLt lt bs as = false → as = bs := by
  intro as
  induction as with
  | nil =>
    intro bs h1 _
    cases bs with
    | nil => rfl
    | cons b bs => simp [lexLt] at h1
  | cons a as ih =>
    intro bs h1 h2
    cases bs with
    | nil => simp [lexLt] at h2
    | cons b bs =>
      simp only [lexLt] at h1 h2
      cases hab : lt a b with
      | true => simp [hab] at h1
      | false =>
        cases hba : lt b a with
        | true => simp [hba] at h2
        | false =>
          have hab' : a = b := heq a b hab hba
          subst hab'
          simp only [hab, Bool.false_eq_true, if_false] at h1 h2
          rw [ih bs h1 h2]

theorem lexLt_connex (lt : α → α → Bool)
    (heq : ∀ a b, lt a b = false → lt b a = false → a = b)
    (as bs : List α) (h : as ≠ bs) :
    lexLt lt as bs = true ∨ lexLt lt bs as = true := by
  cases h1 : lexLt lt as bs with
  | true => exact Or.inl rfl
  | false =>
    cases h2 : lexLt lt bs as with
    | true => exact Or.inr rfl
    | false => exact absurd (lexLt_eq_of_neither lt heq as bs h1 h2) h

theorem strLtB_trans (a b c : String) (h1 : strLtB a b = true) (h2 : strLtB b c = true) :
    strLtB a c = true :=
  lexLt_trans charLtB charLtB_trans charLtB_eq_of_neither a.data b.data c.data h1 h2

theorem strLtB_eq_of_neither (a b : String) (h1 : strLtB a b = false) (h2 : strLtB b a = false) :
    a = b := by
  exact congrArg String.mk
    (lexLt_eq_of_neither charLtB charLtB_eq_of_neither a.data b.data h1 h2)

theorem keyLtB_trans (a b c : List String) (h1 : keyLtB a b = true) (h2 : keyLtB b c = true) :
    keyLtB a c = true :=
  lexLt_trans strLtB strLtB_trans strLtB_eq_of_neither a b c h1 h2

theorem keyLtB_eq_of_neither (a b : List String) (h1 : keyLtB a b = false) (h2 : keyLtB b a = false) :
    a = b :=
  lexLt_eq_of_neither strLtB strLtB_eq_of_neither a b h1 h2

theorem mem_insertSortedBy (lt : α → α → Bool) (x : α) :
    ∀ (l : List α) (a : α), a ∈ insertSortedBy lt x l ↔ a = x ∨ a ∈ l := by
  intro l
  induction l with
  | nil => simp [insertSortedBy]
  | cons b bs ih =>
    intro a
    cases h : lt b x with
    | true =>
      simp only [insertSortedBy, h, if_true, List.mem_cons, ih a]
      tauto
    | false =>
      simp only [insertSortedBy, h, Bool.false_eq_true, if_false, List.mem_cons]

theorem sortBy_cons (lt : α → α → Bool) (x : α) (xs : List α) :
    sortBy lt (x :: xs) = insertSortedBy lt x (sortBy lt xs) := rfl

theorem mem_sortBy (lt : α → α → Bool) :
    ∀ (l : List α) (a : α), a ∈ sortBy lt l ↔ a ∈ l := by
  intro l
  induction l with
  | nil => simp [sortBy]
  | cons x xs ih =>
    intro a
    rw [sortBy_cons, mem_insertSortedBy]
    simp [ih a]

theorem mem_dedupFirstSeen_gen [BEq α] [LawfulBEq α] :
    ∀ (l acc : List α) (a : α),
      a ∈ l.foldl (fun acc x => if acc.contains x then acc else acc ++ [x]) acc ↔
        a ∈ acc ∨ a ∈ l := by
  intro l
  induction l with
  | nil => simp
  | cons y ys ih =>
    intro acc a
    simp only [List.foldl_cons]
    cases h : acc.contains y with
    | true =>
      simp only [h, if_true, ih, List.mem_cons]
      constructor
      · tauto
      · rintro (ha | rfl | ha)
        · exact Or.inl ha
        · exact Or.inl (by simpa using h)
        · exact Or.inr ha
    | false =>
      simp only [h, Bool.false_eq_true, if_false, ih, List.mem_append,
        List.mem_singleton, List.mem_cons]
      tauto

theorem mem_dedupFirstSeen [BEq α] [LawfulBEq α] (l : List α) (a : α) :
    a ∈ dedupFirstSeen l ↔ a ∈ l := by
  have h := mem_dedupFirstSeen_gen l [] a
  simpa [dedupFirstSeen] using h

theorem nodup_dedupFirstSeen_gen [BEq α] [LawfulBEq α] :
    ∀ (l acc : List α), acc.Nodup →
      (l.foldl (fun acc x => if acc.contains x then acc else acc ++ [x]) acc).Nodup := by
  intro l
  induction l with
  | nil => intro acc h; simpa
  | cons y ys ih =>
    intro acc hacc
    simp only [List.foldl_cons]
    cases h : acc.contains y with
    | true => exact ih acc hacc
    | false =>
      refine ih (acc ++ [y]) ?_
      have hy : y ∉ acc := by simpa using h
      simp [List.nodup_append, hacc, hy]

theorem nodup_dedupFirstSeen [BEq α] [LawfulBEq α] (l : List α) :
    (dedupFirstSeen l).Nodup := by
  exact nodup_dedupFirstSeen_gen l [] List.nodup_nil

theorem pairwise_insertSortedBy (lt : α → α → Bool)
    (htr : ∀ a b c, lt a b = true → lt b c = true → lt a c = true)
    (hcon : ∀ a b, a ≠ b → lt a b = true ∨ lt b a = true) (x : α) :
    ∀ (l : List α), List.Pairwise (fun a b => lt a b = true) l →
      (∀ b ∈ l, x ≠ b) →
      List.Pairwise (fun a b => lt a b = true) (insertSortedBy lt x l) := by
  intro l
  induction l with
  | nil => intro _ _; simp [insertSortedBy]
  | cons b bs ih =>
    intro hl hx
    rw [List.pairwise_cons] at hl
    cases h : lt b x with
    | true =>
      simp only [insertSortedBy, h, if_true]
      rw [List.pairwise_cons]
      constructor
      · intro y hy
        rcases (mem_insertSortedBy lt x bs y).mp hy with rfl | hy'
        · exact h
        · exact hl.1 y hy'
      · exact ih hl.2 (fun c hc => hx c (List.mem_cons_of_mem b hc))
    | false =>
      simp only [insertSortedBy, h, Bool.false_eq_true, if_false]
      rw [List.pairwise_cons]
      constructor
      · intro y hy
        have hxb : lt x b = true := by
          rcases hcon x b (hx b (List.mem_cons_self b bs)) with h' | h'
          · exact h'
          · exact absurd h' (by simp [h])
        rcases List.mem_cons.mp hy with rfl | hy'
        · exact hxb
        · exact htr x b y hxb (hl.1 y hy')
      · exact List.pairwise_cons.mpr hl

theorem pairwise_sortBy (lt : α → α → Bool)
    (htr : ∀ a b c, lt a b = true → lt b c = true → lt a c = true)
    (hcon : ∀ a b, a ≠ b → lt a b = true ∨ lt b a = true) :
    ∀ (l : List α), l.Nodup → List.Pairwise (fun a b => lt a b = true) (sortBy lt l) := by
  intro l
  induction l with
  | nil => intro _; simp [sortBy]
  | cons x xs ih =>
    intro hnd
    rw [List.nodup_cons] at hnd
    rw [sortBy_cons]
    refine pairwise_insertSortedBy lt htr hcon x (sortBy lt xs) (ih hnd.2) ?_
    intro b hb
    intro hxb
    exact hnd.1 (hxb ▸ (mem_sortBy lt xs b).mp hb)

theorem strLtB_connex (a b : String) (h : a ≠ b) : strLtB a b = true ∨ strLtB b a = true := by
  cases h1 : strLtB a b with
  | true => exact Or.inl rfl
  | false =>
    cases h2 : strLtB b a with
    | true => exact Or.inr rfl
    | false => exact absurd (strLtB_eq_of_neither a b h1 h2) h

/-- The counter columns of the pivot are exactly the distinct observed
`counter` values of the category's raw rows. -/
theorem mem_sortedCounters (md : ModuleData) (c : String) :
    c ∈ sortedCounters md ↔ c ∈ md.data.map (counterOf md.columns) := by
  rw [sortedCounters, mem_sortBy, mem_dedupFirstSeen]

/-- The counter columns of the pivot are strictly ascending (hence without
duplicates) in code-point order. -/
theorem pairwise_sortedCounters (md : ModuleData) :
    List.Pairwise (fun a b => strLtB a b = true) (sortedCounters md) :=
  pairwise_sortBy strLtB strLtB_trans strLtB_connex _
    (nodup_dedupFirstSeen (md.data.map (counterOf md.columns)))

theorem scanLine_skip (st : ScanState) (l : String) (h : l ∈ SKIP_LINES) :
    scanLine st l = st := by
  simp [scanLine, h]

/-- A line that neither is a column spec nor finds the scanner inside a
category leaves everything but the description accumulator unchanged. -/
theorem scanLine_core (st : ScanState) (l : String)
    (hcs : pyStartswith l "#<module>" = false) (hin : st.in_module = false) :
    (scanLine st l).modules = st.modules ∧ (scanLine st l).module = st.module ∧
    (scanLine st l).in_module = false ∧ (scanLine st l).column_names = st.column_names := by
  by_cases hsk : l ∈ SKIP_LINES
  · simp [scanLine, hsk, hin]
  · by_cases hmd : pyContains l "module data" = true
    · simp [scanLine, hsk, hmd, hin]
    · by_cases hcm : pyStartswith l "#" = true
      · simp [scanLine, hsk, hmd, hcs, hcm, hin]
      · simp [scanLine, hsk, hmd, hcs, hcm, hin]

theorem foldl_scan_core :
    ∀ (lines : List String) (st : ScanState), st.in_module = false →
      (∀ l ∈ lines, pyStartswith l "#<module>" = false) →
      (lines.foldl scanLine st).modules = st.modules ∧
      (lines.foldl scanLine st).module = st.module ∧
      (lines.foldl scanLine st).in_module = false ∧
      (lines.foldl scanLine st).column_names = st.column_names := by
  intro lines
  induction lines with
  | nil => intro st h _; simpa
  | cons l ls ih =>
    intro st hin hl
    have hstep := scanLine_core st l (hl l (List.mem_cons_self l ls)) hin
    have hrest := ih (scanLine st l) hstep.2.2.1
      (fun x hx => hl x (List.mem_cons_of_mem l hx))
    simp only [List.foldl_cons]
    exact ⟨hrest.1.trans hstep.1, hrest.2.1.trans hstep.2.1, hrest.2.2.1,
      hrest.2.2.2.trans hstep.2.2.2⟩

theorem foldl_scan_filter :
    ∀ (lines : List String) (st : ScanState),
      (lines.filter (fun l => !SKIP_LINES.contains l)).foldl scanLine st =
        lines.foldl scanLine st := by
  intro lines
  induction lines with
  | nil => intro st; rfl
  | cons l ls ih =>
    intro st
    cases h : SKIP_LINES.contains l with
    | true =>
      simp only [List.filter_cons, h, Bool.not_true, Bool.false_eq_true, if_false,
        List.foldl_cons, scanLine_skip st l (by simpa using h)]
      exact ih st
    | false =>
      simp only [List.filter_cons, h, Bool.not_false, if_true, List.foldl_cons]
      exact ih (scanLine st l)

theorem extract_header_all (lines : List String)
    (h : ∀ l ∈ lines, pyContains l "log file regions" = false) :
    extract_header lines = lines := by
  unfold extract_header
  rw [List.takeWhile_eq_self_iff.mpr]
  intro x hx
  simp [h x hx]

/-- C2, counterexample: the first denylist line, occurring in the header
region (no sentinel line precedes it), is reproduced verbatim by the header
extractor — so it does appear in the `header.txt` artifact, contradicting
"that line appears verbatim in no output artifact". -/
theorem c2_counterexample :
    extract_header ["# *WARNING*: The POSIX module contains incomplete data!"] =
      ["# *WARNING*: The POSIX module contains incomplete data!"] ∧
    "# *WARNING*: The POSIX module contains incomplete data!" ∈ SKIP_LINES := by
  constructor
  · decide
  · decide

/-- C2, amended: the Section Scanner ignores denylist lines entirely — its
output on any document equals its output on the document with every
denylist line deleted — so denylist lines contribute nothing to any
category's rows, columns, or description; the header extractor, however,
performs no such filtering (see the counterexample). -/
theorem c2_scanner_ignores_denylist (lines : List String) :
    extract_modules (lines.filter (fun l => !SKIP_LINES.contains l)) =
      extract_modules lines := by
  unfold extract_modules
  rw [foldl_scan_filter]

/-- C4, counterexample: a document with no tabular-regions sentinel whose
two lines form a category block: the whole document is indeed treated as
header, but the scanner still produces a (non-zero) category, contradicting
"produces zero categories". -/
theorem c4_counterexample :
    (["#<module> <rank> <counter> <value>", "M 0 C 1"].all
        (fun l => !pyContains l "log file regions")) = true ∧
    extract_header ["#<module> <rank> <counter> <value>", "M 0 C 1"] =
      ["#<module> <rank> <counter> <value>", "M 0 C 1"] ∧
    extract_modules ["#<module> <rank> <counter> <value>", "M 0 C 1"] ≠ [] := by
  refine ⟨by decide, by decide, by decide⟩

/-- C4, amended: when no line contains the tabular-regions sentinel the
entire document is treated as header (`header.txt` holds every input line);
categories, however, are still extracted from any column-spec blocks
present, because the module scanner never consults the sentinel. -/
theorem c4_header_whole_document (lines : List String)
    (h : ∀ l ∈ lines, pyContains l "log file regions" = false) :
    extract_header lines = lines :=
  extract_header_all lines h

/-- Witness for `c4_header_whole_document` at a concrete sentinel-free
document. -/
theorem c4_header_whole_document_witness :
    extract_header ["# jobid: 7", "# nprocs: 4"] = ["# jobid: 7", "# nprocs: 4"] :=
  c4_header_whole_document ["# jobid: 7", "# nprocs: 4"] (by decide)

theorem mem_setModule (n : String) (md : ModuleData) :
    ∀ (ms : List (String × ModuleData)) (q : String × ModuleData),
      q ∈ setModule n md ms → (q.1 = n ∧ q.2 = md) ∨ q ∈ ms := by
  intro ms
  induction ms with
  | nil =>
    intro q hq
    simp only [setModule, List.mem_singleton] at hq
    exact Or.inl (by simp [hq])
  | cons p rest ih =>
    obtain ⟨k, d⟩ := p
    intro q hq
    by_cases hk : k = n
    · simp only [setModule, hk, beq_self_eq_true, if_true, List.mem_cons] at hq
      rcases hq with rfl | hq
      · exact Or.inl ⟨rfl, rfl⟩
      · exact Or.inr (List.mem_cons_of_mem _ hq)
    · simp only [setModule, beq_iff_eq, if_neg hk, List.mem_cons] at hq
      rcases hq with rfl | hq
      · exact Or.inr (List.mem_cons_self _ _)
      · rcases ih q hq with h | h
        · exact Or.inl h
        · exact Or.inr (List.mem_cons_of_mem _ h)

/-- The shape of the scanner step at a first data row (current module
`none`): the entry for the row's first token is freshly created with the
current column spec and description and the row appended. -/
theorem scanLine_data_none (st : ScanState) (l : String)
    (hsk : l ∉ SKIP_LINES) (hmd : ¬pyContains l "module data" = true)
    (hcs : ¬pyStartswith l "#<module>" = true) (hin : st.in_module = true)
    (hbl : ¬isBlankStr l = true) (hmod : st.module = none) :
    scanLine st l =
      { st with
          modules := addRow ((pySplit l).headD "") (pySplit l)
            (setModule ((pySplit l).headD "")
              ⟨st.column_names, [], joinWith "\n" st.current_description⟩
              st.modules),
          module := some ((pySplit l).headD "") } := by
  simp [scanLine, hsk, hmd, hcs, hin, hbl, hmod]

/-- The shape of the scanner step at a later data row of a block (current
module `some name`): the row is appended to that module's entry. -/
theorem scanLine_data_some (st : ScanState) (l : String) (name : String)
    (hsk : l ∉ SKIP_LINES) (hmd : ¬pyContains l "module data" = true)
    (hcs : ¬pyStartswith l "#<module>" = true) (hin : st.in_module = true)
    (hbl : ¬isBlankStr l = true) (hmod : st.module = some name) :
    scanLine st l = { st with modules := addRow name (pySplit l) st.modules } := by
  simp [scanLine, hsk, hmd, hcs, hin, hbl, hmod]

theorem nonempty_addRow (name : String) (row : List String)
    (ms : List (String × ModuleData))
    (h : ∀ p ∈ ms, p.2.data ≠ [] ∨ p.1 = name) :
    ∀ p ∈ addRow name row ms, p.2.data ≠ [] := by
  intro p hp
  rcases List.mem_map.mp hp with ⟨q, hq, rfl⟩
  by_cases hqn : q.1 = name
  · simp [hqn]
  · simp only [beq_iff_eq, if_neg hqn]
    rcases h q hq with h' | h'
    · exact h'
    · exact absurd h' hqn

/-- Every module entry the scanner ever holds has at least one data row:
an entry is created only at the first data row of its block, which is
appended in the same step. -/
theorem scanLine_nonempty (st : ScanState) (l : String)
    (h : ∀ p ∈ st.modules, p.2.data ≠ []) :
    ∀ p ∈ (scanLine st l).modules, p.2.data ≠ [] := by
  by_cases hsk : l ∈ SKIP_LINES
  · simpa [scanLine_skip st l hsk] using h
  by_cases hmd : pyContains l "module data" = true
  · simpa [scanLine, hsk, hmd] using h
  by_cases hcs : pyStartswith l "#<module>" = true
  · simpa [scanLine, hsk, hmd, hcs] using h
  by_cases hin : st.in_module = true
  · by_cases hbl : isBlankStr l = true
    · simpa [scanLine, hsk, hmd, hcs, hin, hbl] using h
    · cases hmod : st.module with
      | none =>
        rw [scanLine_data_none st l hsk hmd hcs hin hbl hmod]
        refine nonempty_addRow _ _ _ ?_
        intro q hq
        rcases mem_setModule _ _ _ q hq with ⟨h1, _⟩ | hmem
        · exact Or.inr h1
        · exact Or.inl (h q hmem)
      | some name =>
        rw [scanLine_data_some st l name hsk hmd hcs hin hbl hmod]
        refine nonempty_addRow _ _ _ ?_
        intro q hq
        exact Or.inl (h q hq)
  · have hin' : st.in_module = false := by
      cases hb : st.in_module
      · rfl
      · exact absurd hb hin
    have hcore := scanLine_core st l (by
      cases hb : pyStartswith l "#<module>"
      · rfl
      · exact absurd hb hcs) hin'
    intro p hp
    rw [hcore.1] at hp
    exact h p hp

theorem foldl_scan_nonempty :
    ∀ (lines : List String) (st : ScanState),
      (∀ p ∈ st.modules, p.2.data ≠ []) →
      ∀ p ∈ ((lines.foldl scanLine st).modules), p.2.data ≠ [] := by
  intro lines
  induction lines with
  | nil => intro st h; exact h
  | cons l ls ih =>
    intro st h
    exact ih (scanLine st l) (scanLine_nonempty st l h)

/-- C7, counterexample: a column-spec line immediately followed by a blank
line produces no category at all — the pipeline completes with no failure,
so the Table Reshaper never "fails with EmptyCategoryError" on such input. -/
theorem c7_counterexample :
    extract_modules ["#<module> <rank> <counter> <value>", ""] = [] ∧
    parse_darshan_to_csv ["#<module> <rank> <counter> <value>", ""] =
      ([WriteEvent.mkdirOutput,
        WriteEvent.file "header.txt"
          (FileContent.headerText ["#<module> <rank> <counter> <value>", ""])],
       none) := by
  refine ⟨by decide, by decide⟩

/-- C7, amended: a category with zero accumulated rows cannot exist — the
scanner creates a category entry only at its first data row, so a
column-spec line immediately followed by a blank line (or end of input)
yields no category and no error; and a category whose only columns are
`counter` and `value` does not fail either: with an empty grouping key the
pivot transposes into a single-row table — an `index` column followed by
one column per distinct counter in sorted order, its one row labelled
`value` and holding the first value of each counter — instead of raising. -/
theorem c7_no_zero_row_category_no_failure :
    (∀ (lines : List String), ∀ p ∈ extract_modules lines, p.2.data ≠ []) ∧
    (∀ md : ModuleData, md.columns.contains "counter" = true →
      md.columns.contains "value" = true →
      identityColumns md.columns = [] →
      reshapeModule md = Except.ok
        { index_columns := ["index"], counters := sortedCounters md,
          rows := [(["value"], (sortedCounters md).map (fun c => pivotCell md [] c))] }) := by
  constructor
  · intro lines p hp
    exact foldl_scan_nonempty lines initState (by intro q hq; simp [initState] at hq) p hp
  · intro md h1 h2 h3
    have h1' : "counter" ∈ md.columns := by simpa using h1
    have h2' : "value" ∈ md.columns := by simpa using h2
    simp [reshapeModule, h1', h2', pivotModule, h3]

/-- Witness for `c7_no_zero_row_category_no_failure` at concrete inputs:
the single category of a two-line document has non-empty data, and a
`counter`/`value`-only category reshapes without error to the transposed
single-row table. -/
theorem c7_no_zero_row_category_no_failure_witness :
    (("M", (⟨["module", "rank", "counter", "value"], [["M", "0", "C", "1"]], ""⟩ : ModuleData)).2.data ≠ []) ∧
    reshapeModule ⟨["counter", "value"], [["C2", "5"], ["C1", "7"], ["C2", "8"]], ""⟩ =
      Except.ok
        { index_columns := ["index"], counters := ["C1", "C2"],
          rows := [(["value"], [some "7", some "5"])] } := by
  constructor
  · exact c7_no_zero_row_category_no_failure.1
      ["#<module> <rank> <counter> <value>", "M 0 C 1"]
      ("M", ⟨["module", "rank", "counter", "value"], [["M", "0", "C", "1"]], ""⟩)
      (by decide)
  · have h := c7_no_zero_row_category_no_failure.2
      ⟨["counter", "value"], [["C2", "5"], ["C1", "7"], ["C2", "8"]], ""⟩
      (by decide) (by decide) (by decide)
    rw [h, Except.ok.injEq]
    decide

theorem moduleEvents_no_noData :
    ∀ (ms : List (String × ModuleData)), (moduleEvents ms).2 ≠ some ParseError.noData := by
  intro ms
  induction ms with
  | nil => simp [moduleEvents]
  | cons p rest ih =>
    obtain ⟨n, md⟩ := p
    cases hr : reshapeModule md with
    | error e => simp [moduleEvents, hr]
    | ok wt =>
      rcases hme : moduleEvents rest with ⟨ws, r⟩
      simp only [moduleEvents, hr, hme]
      intro hc
      exact ih (by rw [hme]; exact hc)

theorem extract_modules_empty_of_no_colspec (lines : List String)
    (h : ∀ l ∈ lines, pyStartswith l "#<module>" = false) :
    extract_modules lines = [] := by
  unfold extract_modules
  exact (foldl_scan_core lines initState rfl h).1

/-- C8: `parse_darshan_to_csv` raises the no-data `ValueError` exactly when
the document is empty (zero lines — which trivially yields zero
categories); and a non-empty document of header lines only (no sentinel, no
column-spec marker) produces a `header.txt` equal to the full input, zero
category artifacts, and no error. -/
theorem c8_no_data_exactly_on_empty (lines : List String) :
    ((parse_darshan_to_csv lines).2 = some ParseError.noData ↔ lines = []) ∧
    ((∀ l ∈ lines, pyContains l "log file regions" = false ∧
        pyStartswith l "#<module>" = false) →
      lines ≠ [] →
      parse_darshan_to_csv lines =
        ([WriteEvent.mkdirOutput,
          WriteEvent.file "header.txt" (FileContent.headerText lines)], none)) := by
  constructor
  · by_cases hl : lines = []
    · subst hl
      simp [parse_darshan_to_csv]
    · rcases hme : moduleEvents (extract_modules lines) with ⟨ws, r⟩
      have hnn := moduleEvents_no_noData (extract_modules lines)
      rw [hme] at hnn
      simp only [parse_darshan_to_csv, List.isEmpty_iff, hl, if_false, hme]
      constructor
      · intro hc
        exact absurd hc hnn
      · intro hc
        exact hc.elim
  · intro hno hl
    have hmod : extract_modules lines = [] :=
      extract_modules_empty_of_no_colspec lines (fun l hm => (hno l hm).2)
    have hhd : extract_header lines = lines :=
      extract_header_all lines (fun l hm => (hno l hm).1)
    simp [parse_darshan_to_csv, List.isEmpty_iff, hl, hmod, hhd, moduleEvents]

/-- Witness for `c8_no_data_exactly_on_empty`: the empty document raises
the no-data error, and a one-line header-only document completes with
`header.txt` holding the whole input and no category artifacts. -/
theorem c8_no_data_exactly_on_empty_witness :
    (parse_darshan_to_csv []).2 = some ParseError.noData ∧
    parse_darshan_to_csv ["# exe: ior"] =
      ([WriteEvent.mkdirOutput,
        WriteEvent.file "header.txt" (FileContent.headerText ["# exe: ior"])], none) := by
  constructor
  · exact (c8_no_data_exactly_on_empty []).1.mpr rfl
  · exact (c8_no_data_exactly_on_empty ["# exe: ior"]).2 (by decide) (by decide)

theorem lookup_cons_hit [BEq α] [LawfulBEq α] (a : α) (v : β) (rest : List (α × β)) :
    List.lookup a ((a, v) :: rest) = some v := by
  simp [List.lookup]

theorem lookup_cons_miss [BEq α] [LawfulBEq α] (a k : α) (v : β) (rest : List (α × β))
    (h : ¬a = k) :
    List.lookup a ((k, v) :: rest) = List.lookup a rest := by
  have hb : (a == k) = false := by simpa using h
  simp [List.lookup, hb]

theorem addRow_cons (n : String) (row : List String) (k : String) (d : ModuleData)
    (rest : List (String × ModuleData)) :
    addRow n row ((k, d) :: rest) =
      (if k == n then (k, { d with data := d.data ++ [row] }) else (k, d)) ::
        addRow n row rest := by
  simp only [addRow, List.map_cons]

theorem setModule_cons (n : String) (md : ModuleData) (k : String) (d : ModuleData)
    (rest : List (String × ModuleData)) :
    setModule n md ((k, d) :: rest) =
      if k == n then (k, md) :: rest else (k, d) :: setModule n md rest := rfl

theorem lookup_addRow (n : String) (row : List String) :
    ∀ (ms : List (String × ModuleData)),
      (addRow n row ms).lookup n =
        (ms.lookup n).map (fun d => { d with data := d.data ++ [row] }) := by
  intro ms
  induction ms with
  | nil => rfl
  | cons p rest ih =>
    obtain ⟨k, d⟩ := p
    by_cases hk : k = n
    · rcases hk with rfl
      rw [addRow_cons, if_pos (beq_self_eq_true k), lookup_cons_hit, lookup_cons_hit]
      rfl
    · rw [addRow_cons, if_neg (by simpa using hk),
        lookup_cons_miss n k d _ (fun h => hk h.symm),
        lookup_cons_miss n k d rest (fun h => hk h.symm)]
      exact ih

theorem lookup_setModule_self (n : String) (md : ModuleData) :
    ∀ (ms : List (String × ModuleData)), (setModule n md ms).lookup n = some md := by
  intro ms
  induction ms with
  | nil => exact lookup_cons_hit n md []
  | cons p rest ih =>
    obtain ⟨k, d⟩ := p
    by_cases hk : k = n
    · rcases hk with rfl
      rw [setModule_cons, if_pos (beq_self_eq_true k), lookup_cons_hit]
    · rw [setModule_cons, if_neg (by simpa using hk),
        lookup_cons_miss n k d _ (fun h => hk h.symm)]
      exact ih

/-- C1, counterexample: the same category name `M` starts two data blocks
separated by a blank line; the extracted entry holds only the second
block's row — the first block's row, columns and description were
overwritten, not appended to. -/
theorem c1_counterexample :
    extract_modules ["#<module> <rank> <counter> <value>", "M 0 A 1", "",
        "#<module> <rank> <counter> <value>", "M 0 B 2"] =
      [("M", ⟨["module", "rank", "counter", "value"], [["M", "0", "B", "2"]], ""⟩)] ∧
    (extract_modules ["#<module> <rank> <counter> <value>", "M 0 A 1", "",
        "#<module> <rank> <counter> <value>", "M 0 B 2"]).lookup "M" ≠
      some ⟨["module", "rank", "counter", "value"],
        [["M", "0", "A", "1"], ["M", "0", "B", "2"]], ""⟩ := by
  refine ⟨by decide, by decide⟩

/-- C1, amended: when a data block opens (scanner inside a category with no
current module) the first data row REPLACES any previously accumulated
entry of the same name: after the step, the entry for the row's first token
holds exactly the current column spec, the single new row, and the current
description — whatever rows, columns and description that name had
accumulated before are discarded (only the entry's dict position is kept). -/
theorem c1_reopened_category_overwrites (st : ScanState) (l : String)
    (hsk : l ∉ SKIP_LINES) (hmd : pyContains l "module data" = false)
    (hcs : pyStartswith l "#<module>" = false) (hin : st.in_module = true)
    (hmod : st.module = none) (hbl : isBlankStr l = false) :
    ((scanLine st l).modules).lookup ((pySplit l).headD "") =
      some ⟨st.column_names, [pySplit l], joinWith "\n" st.current_description⟩ := by
  rw [scanLine_data_none st l hsk (by simp [hmd]) (by simp [hcs]) hin (by simp [hbl]) hmod]
  rw [lookup_addRow, lookup_setModule_self]
  rfl

/-- Witness for `c1_reopened_category_overwrites`: a state already holding
an entry for `M` (with old rows, columns and description) processes the
data row `"M 0"`; afterwards the entry for `M` holds only the new row with
the current column spec and empty description. -/
theorem c1_reopened_category_overwrites_witness :
    ((scanLine
        ⟨[("M", ⟨["module", "old"], [["M", "9", "9"]], "old desc"⟩)],
          none, true, [], ["module", "rank"]⟩ "M 0").modules).lookup "M" =
      some ⟨["module", "rank"], [["M", "0"]], ""⟩ := by
  have h := c1_reopened_category_overwrites
    ⟨[("M", ⟨["module", "old"], [["M", "9", "9"]], "old desc"⟩)],
      none, true, [], ["module", "rank"]⟩ "M 0"
    (by decide) (by decide) (by decide) rfl rfl (by decide)
  exact h

theorem pivotAccum_eq (md : ModuleData) :
    pivotAccum md = md.data.foldl (accStep md.columns) [] := rfl

theorem any_key_eq_isSome [BEq α] [LawfulBEq α] (x : α) :
    ∀ (tbl : List (α × β)), tbl.any (fun e => e.1 == x) = (tbl.lookup x).isSome := by
  intro tbl
  induction tbl with
  | nil => rfl
  | cons p rest ih =>
    obtain ⟨k, v⟩ := p
    by_cases hk : k = x
    · rcases hk with rfl
      simp [List.lookup]
    · have h1 : (k == x) = false := by simpa using hk
      have h2 : (x == k) = false := by simpa using fun h => hk h.symm
      simp [List.lookup, h1, h2, ih]

theorem lookup_append_cases [BEq α] (x : α) :
    ∀ (l1 l2 : List (α × β)),
      (l1 ++ l2).lookup x =
        match l1.lookup x with
        | some v => some v
        | none => l2.lookup x := by
  intro l1 l2
  induction l1 with
  | nil => simp [List.lookup]
  | cons p rest ih =>
    obtain ⟨k, v⟩ := p
    cases hk : x == k with
    | true => simp [List.lookup, hk]
    | false => simp [List.lookup, hk, ih]

theorem accum_lookup :
    ∀ (rows : List (List String)) (cols : List String)
      (tbl : List ((List String × String) × String)) (k : List String) (c : String),
      (rows.foldl (accStep cols) tbl).lookup (k, c) =
        match tbl.lookup (k, c) with
        | some v => some v
        | none =>
          (rows.find? (fun r => keyOf cols r == k && counterOf cols r == c)).map
            (valueOf cols) := by
  intro rows
  induction rows with
  | nil =>
    intro cols tbl k c
    simp only [List.foldl_nil, List.find?_nil, Option.map_none']
    cases tbl.lookup (k, c) <;> rfl
  | cons r rows ih =>
    intro cols tbl k c
    simp only [List.foldl_cons]
    by_cases hit : (keyOf cols r, counterOf cols r) = (k, c)
    · have hpr : (fun r => keyOf cols r == k && counterOf cols r == c) r = true := by
        simp [Prod.ext_iff] at hit
        simp [hit.1, hit.2]
      cases hany : tbl.any (fun e => e.1 == (keyOf cols r, counterOf cols r)) with
      | true =>
        have hsome : (tbl.lookup (k, c)).isSome = true := by
          rw [← hit, ← any_key_eq_isSome]
          exact hany
        rcases Option.isSome_iff_exists.mp hsome with ⟨v, hv⟩
        rw [accStep, if_pos hany, ih cols tbl k c, hv]
      | false =>
        have hnone : tbl.lookup (k, c) = none := by
          rw [any_key_eq_isSome (keyOf cols r, counterOf cols r)] at hany
          rw [← hit]
          exact Option.not_isSome_iff_eq_none.mp (by simp [hany])
        rw [accStep, if_neg (by simp [hany]), ih cols _ k c]
        rw [lookup_append_cases, hnone]
        rw [hit, lookup_cons_hit (k, c) (valueOf cols r) []]
        simp [List.find?_cons, hpr, hit]
    · have hpr : (fun r => keyOf cols r == k && counterOf cols r == c) r = false := by
        cases h1 : (keyOf cols r == k) with
        | false => simp [h1]
        | true =>
          have hke : keyOf cols r = k := by simpa using h1
          have hce : ¬counterOf cols r = c := by
            intro hc
            exact hit (by rw [hke, hc])
          simp [h1, by simpa using hce]
      cases hany : tbl.any (fun e => e.1 == (keyOf cols r, counterOf cols r)) with
      | true =>
        rw [accStep, if_pos hany, ih cols tbl k c]
        simp [List.find?_cons, hpr]
      | false =>
        rw [accStep, if_neg (by simp [hany]), ih cols _ k c]
        rw [lookup_append_cases]
        have hmiss : List.lookup (k, c)
            [((keyOf cols r, counterOf cols r), valueOf cols r)] = none := by
          rw [lookup_cons_miss (k, c) _ _ [] (fun h => hit h.symm)]
          rfl
        cases htl : tbl.lookup (k, c) with
        | some v => simp
        | none =>
          simp only [hmiss]
          simp [List.find?_cons, hpr]

/-- C6: every cell of the pivoted wide table holds the `value` of the FIRST
raw row (in original row order) whose identity key and counter match; later
duplicate observations of the same (identity, counter) pair are never
recorded (`aggfunc='first'`). -/
theorem c6_first_observation_wins (md : ModuleData) (k : List String) (c : String) :
    pivotCell md k c =
      (md.data.find? (fun r => keyOf md.columns r == k && counterOf md.columns r == c)).map
        (valueOf md.columns) := by
  rw [pivotCell, pivotAccum_eq, accum_lookup md.data md.columns [] k c]
  rfl

/-- C5, counterexample: a category whose counters are first observed in the
order `Z9, A1` yields CSV header `module, rank, A1, Z9` — the counter
columns are sorted, not in first-seen order. -/
theorem c5_counterexample :
    firstSeenCounters
        ⟨["module", "rank", "counter", "value"],
          [["M", "0", "Z9", "1"], ["M", "0", "A1", "2"]], ""⟩ = ["Z9", "A1"] ∧
    csvHeader (pivotModule
        ⟨["module", "rank", "counter", "value"],
          [["M", "0", "Z9", "1"], ["M", "0", "A1", "2"]], ""⟩) =
      ["module", "rank", "A1", "Z9"] ∧
    csvHeader (pivotModule
        ⟨["module", "rank", "counter", "value"],
          [["M", "0", "Z9", "1"], ["M", "0", "A1", "2"]], ""⟩) ≠
      identityColumns ["module", "rank", "counter", "value"] ++
        firstSeenCounters
          ⟨["module", "rank", "counter", "value"],
            [["M", "0", "Z9", "1"], ["M", "0", "A1", "2"]], ""⟩ := by
  refine ⟨by decide, by decide, by decide⟩

/-- C5, amended: for every category with a non-empty identity-column list,
the first CSV row is the identity columns in their original column-spec
order followed by one column per distinct observed counter value — but in
lexicographically ascending (code-point) order, not first-seen order,
because the pivot sorts its column labels. -/
theorem c5_header_row (md : ModuleData) (h : identityColumns md.columns ≠ []) :
    csvHeader (pivotModule md) = identityColumns md.columns ++ sortedCounters md ∧
    List.Pairwise (fun a b => strLtB a b = true) ((pivotModule md).counters) ∧
    (∀ c, c ∈ (pivotModule md).counters ↔ c ∈ md.data.map (counterOf md.columns)) := by
  have hne : ¬(identityColumns md.columns).isEmpty = true := by
    simpa [List.isEmpty_iff] using h
  have hp : pivotModule md =
      { index_columns := identityColumns md.columns,
        counters := sortedCounters md,
        rows := (sortedKeys md).map
          (fun k => (k, (sortedCounters md).map (fun c => pivotCell md k c))) } := by
    rw [pivotModule, if_neg hne]
  refine ⟨by rw [hp]; rfl, ?_, ?_⟩
  · rw [hp]
    exact pairwise_sortedCounters md
  · intro c
    rw [hp]
    exact mem_sortedCounters md c

/-- Witness for `c5_header_row` at a concrete two-counter category. -/
theorem c5_header_row_witness :
    csvHeader (pivotModule
        ⟨["module", "rank", "counter", "value"],
          [["M", "0", "Z9", "1"], ["M", "0", "A1", "2"]], ""⟩) =
      identityColumns ["module", "rank", "counter", "value"] ++
        sortedCounters
          ⟨["module", "rank", "counter", "value"],
            [["M", "0", "Z9", "1"], ["M", "0", "A1", "2"]], ""⟩ ∧
    ("A1" ∈ (pivotModule
        ⟨["module", "rank", "counter", "value"],
          [["M", "0", "Z9", "1"], ["M", "0", "A1", "2"]], ""⟩).counters ↔
      "A1" ∈ (⟨["module", "rank", "counter", "value"],
          [["M", "0", "Z9", "1"], ["M", "0", "A1", "2"]], ""⟩ : ModuleData).data.map
            (counterOf ["module", "rank", "counter", "value"])) :=
  ⟨(c5_header_row
      ⟨["module", "rank", "counter", "value"],
        [["M", "0", "Z9", "1"], ["M", "0", "A1", "2"]], ""⟩ (by decide)).1,
   (c5_header_row
      ⟨["module", "rank", "counter", "value"],
        [["M", "0", "Z9", "1"], ["M", "0", "A1", "2"]], ""⟩ (by decide)).2.2 "A1"⟩

theorem goodEvents_cons_ok (k : String) (md : ModuleData)
    (rest : List (String × ModuleData)) (wt : WideTable)
    (hwt : reshapeModule md = Except.ok wt) :
    goodEvents ((k, md) :: rest) =
      WriteEvent.file (k ++ ".csv") (FileContent.table wt) ::
        WriteEvent.file (k ++ "_description.txt") (FileContent.text md.description) ::
          goodEvents rest := by
  simp [goodEvents, hwt]

theorem moduleEvents_good_then_error (n : String) (bad : ModuleData)
    (rest : List (String × ModuleData)) (e : ReshapeError)
    (hb : reshapeModule bad = Except.error e) :
    ∀ (good : List (String × ModuleData)),
      (∀ p ∈ good, ∃ wt, reshapeModule p.2 = Except.ok wt) →
      moduleEvents (good ++ (n, bad) :: rest) =
        (goodEvents good, some (ParseError.reshape n e)) := by
  intro good
  induction good with
  | nil =>
    intro _
    simp [moduleEvents, hb, goodEvents]
  | cons p good ih =>
    intro hg
    obtain ⟨k, md⟩ := p
    rcases hg (k, md) (List.mem_cons_self _ _) with ⟨wt, hwt⟩
    have ihr := ih (fun q hq => hg q (List.mem_cons_of_mem _ hq))
    rcases hme : moduleEvents (good ++ (n, bad) :: rest) with ⟨ws, r⟩
    rw [hme] at ihr
    rw [Prod.mk.injEq] at ihr
    rw [List.cons_append, moduleEvents, hwt, hme,
      goodEvents_cons_ok k md good wt hwt, ihr.1, ihr.2]

/-- C10: `parse_darshan_to_csv` creates the output directory and writes
`header.txt` before processing any category; when the reshape of a later
category fails, the events performed are exactly the directory creation,
the header write, and the two artifacts of every earlier (successful)
category — nothing is rolled back. -/
theorem c10_prior_writes_persist (lines : List String)
    (good : List (String × ModuleData)) (n : String) (bad : ModuleData)
    (rest : List (String × ModuleData)) (e : ReshapeError)
    (hm : extract_modules lines = good ++ (n, bad) :: rest)
    (hg : ∀ p ∈ good, ∃ wt, reshapeModule p.2 = Except.ok wt)
    (hb : reshapeModule bad = Except.error e) :
    parse_darshan_to_csv lines =
      (WriteEvent.mkdirOutput ::
        WriteEvent.file "header.txt" (FileContent.headerText (extract_header lines)) ::
          goodEvents good,
       some (ParseError.reshape n e)) := by
  have hl : lines ≠ [] := by
    intro h
    subst h
    have : ([] : List (String × ModuleData)) = good ++ (n, bad) :: rest := hm
    simp at this
  have hME := moduleEvents_good_then_error n bad rest e hb good hg
  unfold parse_darshan_to_csv
  rw [if_neg (by simpa [List.isEmpty_iff] using hl), hm, hME]

/-- Witness for `c10_prior_writes_persist`: a document whose first
category `A` reshapes fine and whose second category `B` lacks the
`counter` and `value` columns (the raised error names `value`, which
pandas validates first); the run fails on `B` but the directory creation,
the header write and both `A` artifacts are already performed. -/
theorem c10_prior_writes_persist_witness :
    parse_darshan_to_csv
        ["#<module> <rank> <counter> <value>", "A 0 C1 5", "",
          "#<module> <rank> <cnt> <val>", "B 0 C2 6"] =
      (WriteEvent.mkdirOutput ::
        WriteEvent.file "header.txt"
          (FileContent.headerText
            ["#<module> <rank> <counter> <value>", "A 0 C1 5", "",
              "#<module> <rank> <cnt> <val>", "B 0 C2 6"]) ::
          goodEvents [("A", ⟨["module", "rank", "counter", "value"], [["A", "0", "C1", "5"]], ""⟩)],
       some (ParseError.reshape "B" (ReshapeError.missingColumn "value"))) := by
  have h := c10_prior_writes_persist
    ["#<module> <rank> <counter> <value>", "A 0 C1 5", "",
      "#<module> <rank> <cnt> <val>", "B 0 C2 6"]
    [("A", ⟨["module", "rank", "counter", "value"], [["A", "0", "C1", "5"]], ""⟩)]
    "B" ⟨["module", "rank", "cnt", "val"], [["B", "0", "C2", "6"]], ""⟩
    [] (ReshapeError.missingColumn "value")
    (by decide)
    (by
      intro p hp
      rw [List.mem_singleton] at hp
      subst hp
      exact ⟨pivotModule ⟨["module", "rank", "counter", "value"], [["A", "0", "C1", "5"]], ""⟩, rfl⟩)
    rfl
  rw [h]
  have hh : extract_header
      ["#<module> <rank> <counter> <value>", "A 0 C1 5", "",
        "#<module> <rank> <cnt> <val>", "B 0 C2 6"] =
      ["#<module> <rank> <counter> <value>", "A 0 C1 5", "",
        "#<module> <rank> <cnt> <val>", "B 0 C2 6"] := by decide
  rw [hh]

theorem isPrefixL_append_self : ∀ (l m : List Char), isPrefixL l (l ++ m) = true := by
  intro l m
  induction l with
  | nil => rfl
  | cons c cs ih => simp [isPrefixL, ih]

theorem pyEndswith_append (n p : String) : pyEndswith (n ++ p) p = true := by
  show isPrefixL p.data.reverse (n ++ p).data.reverse = true
  have hd : (n ++ p).data = n.data ++ p.data := rfl
  rw [hd, List.reverse_append]
  exact isPrefixL_append_self p.data.reverse n.data.reverse

theorem not_endswith_csv_description (n : String) :
    pyEndswith (n ++ "_description.txt") ".csv" = false := by
  show isPrefixL (".csv" : String).data.reverse (n ++ "_description.txt").data.reverse = false
  have hd : (n ++ "_description.txt").data = n.data ++ ("_description.txt" : String).data := rfl
  have hrevd : (("_description.txt" : String).data).reverse =
      ['t', 'x', 't', '.', 'n', 'o', 'i', 't', 'p', 'i', 'r', 'c', 's', 'e', 'd', '_'] := by
    decide
  have hrevc : ((".csv" : String).data).reverse = ['v', 's', 'c', '.'] := by decide
  rw [hd, List.reverse_append, hrevd, hrevc]
  have hvt : (('v' : Char) == 't') = false := by decide
  simp [isPrefixL, hvt]

theorem stripCsvAux_cons (c : Char) (cs : List Char)
    (h : ¬isPrefixL ['.', 'c', 's', 'v'] (c :: cs) = true) :
    stripCsvAux (c :: cs) = c :: stripCsvAux cs := by
  rw [stripCsvAux.eq_def]
  split
  · rename_i rest heq
    rw [List.cons.injEq] at heq
    rcases heq with ⟨rfl, rfl⟩
    exact absurd (by simp [isPrefixL]) h
  · rename_i c' rest' hno hne
    rw [List.cons.injEq] at hne
    rcases hne with ⟨rfl, rfl⟩
    rfl
  · simp_all

theorem no_boundary_overlap : ∀ (c : Char) (cs : List Char),
    isPrefixL ['.', 'c', 's', 'v'] (c :: cs) = false →
    isPrefixL ['.', 'c', 's', 'v'] (c :: (cs ++ ['.', 'c', 's', 'v'])) = false := by
  intro c cs hp
  have h1 : (('c' : Char) == '.') = false := by decide
  have h2 : (('s' : Char) == '.') = false := by decide
  have h3 : (('v' : Char) == '.') = false := by decide
  match cs with
  | [] => simp [isPrefixL, h1]
  | [d] => simp [isPrefixL, h2]
  | [d, e] => simp [isPrefixL, h3]
  | d :: e :: f :: rest => simpa [isPrefixL] using hp

theorem stripCsvAux_strip :
    ∀ (n : List Char), containsL (".csv" : String).data n = false →
      stripCsvAux (n ++ (".csv" : String).data) = n := by
  intro n
  induction n with
  | nil => intro _; decide
  | cons c cs ih =>
    intro h
    have hsplit : isPrefixL (".csv" : String).data (c :: cs) = false ∧
        containsL (".csv" : String).data cs = false := by
      rw [containsL] at h
      exact ⟨by cases hA : isPrefixL (".csv" : String).data (c :: cs) <;>
        simp_all, by cases hB : containsL (".csv" : String).data cs <;> simp_all⟩
    have hdata : (".csv" : String).data = ['.', 'c', 's', 'v'] := by decide
    have hnb := no_boundary_overlap c cs (by rw [← hdata]; exact hsplit.1)
    rw [List.cons_append, stripCsvAux_cons c (cs ++ (".csv" : String).data)
      (by rw [hdata]; simp [hnb])]
    rw [ih hsplit.2]

theorem stripCsv_append_csv (n : String) (h : pyContains n ".csv" = false) :
    stripCsv (n ++ ".csv") = n := by
  show String.mk (stripCsvAux (n ++ ".csv").data) = n
  have hd : (n ++ ".csv").data = n.data ++ (".csv" : String).data := rfl
  rw [hd, stripCsvAux_strip n.data h]

theorem c9_aux :
    ∀ (names : List String), (∀ n ∈ names, pyContains n ".csv" = false) →
      ((names.foldr (fun n acc => (n ++ ".csv") :: (n ++ "_description.txt") :: acc)
          []).filter (fun f => pyEndswith f ".csv")).map stripCsv = names := by
  intro names
  induction names with
  | nil => intro _; rfl
  | cons n ns ih =>
    intro h
    simp only [List.foldr_cons, List.filter_cons, pyEndswith_append n ".csv",
      not_endswith_csv_description n, Bool.false_eq_true, if_false, if_true,
      List.map_cons]
    rw [stripCsv_append_csv n (h n (List.mem_cons_self n ns)),
      ih (fun m hm => h m (List.mem_cons_of_mem n hm))]

/-- C9, counterexample: writing the single category named `a.csv` produces
the table artifact `a.csv.csv`; the enumerator strips every `.csv`
occurrence and returns `a`, not `a.csv` — the round trip fails for names
containing `.csv`. -/
theorem c9_counterexample :
    list_darshan_modules (persistedFiles ["a.csv"]) = ["a"] ∧
    list_darshan_modules (persistedFiles ["a.csv"]) ≠ ["a.csv"] := by
  refine ⟨by decide, by decide⟩

/-- C9, amended: for every list of category names none of which contains
`.csv` as a substring, the Category Enumerator applied to the fresh
directory's files returns exactly the written names — the header artifact
and the description artifacts contribute nothing; names containing `.csv`
are mangled because `replace(".csv", "")` strips every occurrence. -/
theorem c9_roundtrip_names (names : List String)
    (h : ∀ n ∈ names, pyContains n ".csv" = false) :
    list_darshan_modules (persistedFiles names) = names := by
  unfold list_darshan_modules persistedFiles
  have hhd : pyEndswith "header.txt" ".csv" = false := by decide
  simp only [List.filter_cons, hhd, Bool.false_eq_true, if_false]
  exact c9_aux names h

/-- Witness for `c9_roundtrip_names` on two ordinary category names. -/
theorem c9_roundtrip_names_witness :
    list_darshan_modules (persistedFiles ["POSIX", "STDIO"]) = ["POSIX", "STDIO"] :=
  c9_roundtrip_names ["POSIX", "STDIO"] (by decide)

theorem skip_lines_no_mdata : ∀ s ∈ SKIP_LINES, pyContains s "module data" = false := by
  decide

theorem scanLine_mdata (st : ScanState) (l : String)
    (hmd : pyContains l "module data" = true) :
    scanLine st l = { st with current_description := [] } := by
  have hsk : l ∉ SKIP_LINES := by
    intro hmem
    rw [skip_lines_no_mdata l hmem] at hmd
    exact Bool.false_ne_true hmd
  simp [scanLine, hsk, hmd]

/-- Two scanner states that agree on everything except the description
accumulator converge as soon as a `module data` line resets the
accumulator, provided no column-spec line opens a category before it. -/
theorem foldl_scan_desc_irrel :
    ∀ (pre : List String) (st1 st2 : ScanState),
      st1.modules = st2.modules → st1.module = st2.module →
      st1.in_module = false → st2.in_module = false →
      st1.column_names = st2.column_names →
      (∀ l ∈ pre, pyStartswith l "#<module>" = false) →
      ∀ (mline : String) (post : List String), pyContains mline "module data" = true →
        (pre ++ mline :: post).foldl scanLine st1 =
          (pre ++ mline :: post).foldl scanLine st2 := by
  intro pre
  induction pre with
  | nil =>
    intro st1 st2 hm hmo hin1 hin2 hc _ mline post hmd
    simp only [List.nil_append, List.foldl_cons]
    rw [scanLine_mdata st1 mline hmd, scanLine_mdata st2 mline hmd]
    have hst : ({ st1 with current_description := [] } : ScanState) =
        { st2 with current_description := [] } := by
      cases st1; cases st2
      simp_all
    rw [hst]
  | cons p pre ih =>
    intro st1 st2 hm hmo hin1 hin2 hc hpre mline post hmd
    simp only [List.cons_append, List.foldl_cons]
    have hps : pyStartswith p "#<module>" = false := hpre p (List.mem_cons_self p pre)
    have hs1 := scanLine_core st1 p hps hin1
    have hs2 := scanLine_core st2 p hps hin2
    exact ih (scanLine st1 p) (scanLine st2 p)
      (hs1.1.trans (hm.trans hs2.1.symm))
      (hs1.2.1.trans (hmo.trans hs2.2.1.symm))
      hs1.2.2.1 hs2.2.2.1
      (hs1.2.2.2.trans (hc.trans hs2.2.2.2.symm))
      (fun l hl => hpre l (List.mem_cons_of_mem p hl))
      mline post hmd

theorem takeWhile_prefix_stop (p : String → Bool) :
    ∀ (hp : List String), (∀ l ∈ hp, p l = true) →
      ∀ (a : String) (rest : List String), p a = false →
        (hp ++ a :: rest).takeWhile p = hp := by
  intro hp
  induction hp with
  | nil =>
    intro _ a rest ha
    simp [List.takeWhile_cons, ha]
  | cons x xs ih =>
    intro h a rest ha
    simp only [List.cons_append, List.takeWhile_cons, h x (List.mem_cons_self x xs), if_true]
    rw [ih (fun l hl => h l (List.mem_cons_of_mem x hl)) a rest ha]

/-- C3, counterexample: the header comment line `# app: foo` (it precedes
the sentinel line and is reproduced in `header.txt`) also ends up verbatim
as the description of category `M`, because the module scanner runs over
the whole document and no `module data` line resets the accumulator. -/
theorem c3_counterexample :
    extract_modules ["# app: foo", "x log file regions x",
        "#<module> <rank> <counter> <value>", "M 0 C 1"] =
      [("M", ⟨["module", "rank", "counter", "value"], [["M", "0", "C", "1"]],
        "# app: foo"⟩)] ∧
    "# app: foo" ∈ extract_header ["# app: foo", "x log file regions x",
        "#<module> <rank> <counter> <value>", "M 0 C 1"] := by
  refine ⟨by decide, by decide⟩

/-- C3, amended: for well-formed documents — header lines without the
sentinel and without column-spec lines, then a sentinel line, then a region
whose first column-spec line is preceded by a `module data` marker — the
separation holds: `header.txt` is exactly the pre-sentinel prefix, and the
categories (rows, columns, descriptions) are computed from the
post-sentinel region alone, so no header line reaches a category artifact
and no category line reaches the header. -/
theorem c3_separation (hp r1 r2 : List String) (sline mline : String)
    (h1 : ∀ l ∈ hp, pyContains l "log file regions" = false)
    (h2 : pyContains sline "log file regions" = true)
    (h3 : ∀ l ∈ hp, pyStartswith l "#<module>" = false)
    (h4 : pyStartswith sline "#<module>" = false)
    (h5 : ∀ l ∈ r1, pyStartswith l "#<module>" = false)
    (h6 : pyContains mline "module data" = true) :
    extract_header (hp ++ sline :: (r1 ++ mline :: r2)) = hp ∧
    extract_modules (hp ++ sline :: (r1 ++ mline :: r2)) =
      extract_modules (sline :: (r1 ++ mline :: r2)) := by
  constructor
  · unfold extract_header
    exact takeWhile_prefix_stop _ hp (fun l hl => by simp [h1 l hl]) sline _ (by simp [h2])
  · unfold extract_modules
    rw [List.foldl_append]
    have hcore := foldl_scan_core hp initState rfl h3
    have hsh : sline :: (r1 ++ mline :: r2) = (sline :: r1) ++ (mline :: r2) := by simp
    rw [hsh]
    refine congrArg ScanState.modules
      (foldl_scan_desc_irrel (sline :: r1) (hp.foldl scanLine initState) initState
        hcore.1 hcore.2.1 hcore.2.2.1 rfl hcore.2.2.2 ?_ mline r2 h6)
    intro l hl
    rcases List.mem_cons.mp hl with rfl | hl'
    · exact h4
    · exact h5 l hl'

/-- Witness for `c3_separation` on a concrete well-formed document. -/
theorem c3_separation_witness :
    extract_header ["# app", "# darshan log file regions", "# desc line",
        "# POSIX module data", "#<module> <rank> <counter> <value>", "M 0 C 1"] =
      ["# app"] ∧
    extract_modules ["# app", "# darshan log file regions", "# desc line",
        "# POSIX module data", "#<module> <rank> <counter> <value>", "M 0 C 1"] =
      extract_modules ["# darshan log file regions", "# desc line",
        "# POSIX module data", "#<module> <rank> <counter> <value>", "M 0 C 1"] := by
  have h := c3_separation ["# app"] ["# desc line"]
    ["#<module> <rank> <counter> <value>", "M 0 C 1"]
    "# darshan log file regions" "# POSIX module data"
    (by decide) (by decide) (by decide) (by decide) (by decide) (by decide)
  exact h

end DarshanSummarizer
